import Mathlib

/-!
A shallow embedding of the `lazy` Go package (github.com/iwanhae/lazy):
a channel-based streaming pipeline with sources (`NewSlice`), transforms
(`Map`, `Filter`), a sink (`Consume`), and a per-stage option record built
by `buildOpts` (`WithSize`, `WithErrHandler`).

Modelling conventions:
* A Go value of type `error` is modelled as `Option ε` (`none` = nil error).
* `type Decision string` is modelled as `String`; the constants
  `DecisionStop = "stop"` and `DecisionIgnore = "ignore"` are string values,
  and the workers compare the handler result against `DecisionStop` with
  string equality, exactly as the Go code does.
* The background worker of a stage is modelled as a function producing the trace
  of observable events on its output channel: `Event.enqueue v` for each
  `ch <- v` send and `Event.close` for `close(ch)`.
* The shared cancellation context is modelled by an oracle `List Bool`:
  each cancellation-guarded send (`select { case <-ctx.Done(): ...;
  case ch <- v: ... }`) consults the next oracle entry; `true` means the
  `ctx.Done()` branch wins the race, `false` means the send succeeds.
  An exhausted oracle reads as `false` (no cancellation observed).
* A user function that panics is modelled by returning `none`. While the
  goroutine panics its deferred calls still run in LIFO order, so the
  deferred `close(ch)` fires and the channel trace ends with `Event.close`.
  The panic itself is NOT contained: the workers write `defer recover()`,
  deferring the recover builtin directly, and per the Go specification
  recover stops a panic only when called by a deferred function, so the run
  then ends in an unrecovered panic that terminates the whole process. The
  functions `mapWorkerCrashes` and `filterWorkerCrashes` record this crash
  outcome separately from the channel trace.
-/

namespace Lazy

/-- `type Decision string` from with.go: an open string type, not a closed
two-variant enumeration. -/
abbrev Decision := String

/-- `DecisionStop = "stop"` from with.go. -/
def DecisionStop : Decision := "stop"

/-- `DecisionIgnore = "ignore"` from with.go. -/
def DecisionIgnore : Decision := "ignore"

/-- The `option` record from with.go: output channel capacity and the
error-decision handler. `ε` is the type standing for the Go `error` values. -/
structure option (ε : Type) where
  size : Int
  onError : ε → Decision

/-- `IgnoreErrorHandler` from with.go: always returns `DecisionIgnore`. -/
def IgnoreErrorHandler {ε : Type} : ε → Decision := fun _ => DecisionIgnore

/-- `buildOpts` from with.go: start from the defaults
`{size: 0, onError: IgnoreErrorHandler}` and apply the option functions in
order (each Go `optionFunc` mutates the record in place; here it is a
function `option ε → option ε`). -/
def buildOpts {ε : Type} (opts : List (option ε → option ε)) : option ε :=
  opts.foldl (fun o f => f o) { size := 0, onError := IgnoreErrorHandler }

/-- `WithSize` from with.go: set the `size` field. -/
def WithSize {ε : Type} (size : Int) : option ε → option ε :=
  fun o => { o with size := size }

/-- `WithErrHandler` from with.go: set the `onError` field. -/
def WithErrHandler {ε : Type} (handler : ε → Decision) : option ε → option ε :=
  fun o => { o with onError := handler }

/-- An observable event on the output channel of a stage. -/
inductive Event (α : Type) where
  | enqueue (v : α)
  | close
deriving DecidableEq, Repr

/-- The contents a downstream reader can drain from a channel whose event
trace is given: every value enqueued before the first `close`. -/
def emitted {α : Type} : List (Event α) → List α
  | [] => []
  | Event.enqueue v :: es => v :: emitted es
  | Event.close :: _ => []

/-- The worker goroutine body of `Map` from map.go:
iterate the upstream values; on a mapper error consult `onError` and either
return (`DecisionStop`, the deferred `close(ch)` fires) or drop the value
and continue; on success perform a cancellation-guarded send. A `none`
mapper result models a panic in the mapper: the deferred `close(ch)` still
runs while the goroutine panics, so the channel trace ends with
`Event.close`, but the panic is not stopped by `defer recover()` and goes on
to kill the process — see `mapWorkerCrashes`. -/
def mapWorker {α β ε : Type} (onError : ε → Decision)
    (mapper : α → Option (β × Option ε)) :
    List α → List Bool → List (Event β)
  | [], _ => [Event.close]
  | v :: rest, oracle =>
    match mapper v with
    | none => [Event.close]
    | some (_, some e) =>
      if onError e = DecisionStop then [Event.close]
      else mapWorker onError mapper rest oracle
    | some (result, none) =>
      if oracle.headD false then [Event.close]
      else Event.enqueue result :: mapWorker onError mapper rest oracle.tail

/-- `Map` from map.go: build the options, then run the worker; the trace of
the channel of the returned object carries the event trace of the worker. -/
def Map {α β ε : Type} (mapper : α → Option (β × Option ε))
    (opts : List (option ε → option ε)) (input : List α)
    (oracle : List Bool) : List (Event β) :=
  mapWorker (buildOpts opts).onError mapper input oracle

/-- The worker goroutine body of `Filter` from new.go: on a predicate error
consult `onError` (return on `DecisionStop`, otherwise drop and continue);
on `(false, nil)` drop the value silently; on `(true, nil)` perform a
cancellation-guarded send of the original value. A `none` predicate result
models a panic: the deferred `close(ch)` still runs, so the channel trace
ends with `Event.close`, but the panic is not stopped by `defer recover()`
and goes on to kill the process — see `filterWorkerCrashes`. -/
def filterWorker {α ε : Type} (onError : ε → Decision)
    (predicate : α → Option (Bool × Option ε)) :
    List α → List Bool → List (Event α)
  | [], _ => [Event.close]
  | v :: rest, oracle =>
    match predicate v with
    | none => [Event.close]
    | some (_, some e) =>
      if onError e = DecisionStop then [Event.close]
      else filterWorker onError predicate rest oracle
    | some (ok, none) =>
      if !ok then filterWorker onError predicate rest oracle
      else if oracle.headD false then [Event.close]
      else Event.enqueue v :: filterWorker onError predicate rest oracle.tail

/-- `Filter` from new.go: build the options, then run the worker. -/
def Filter {α ε : Type} (predicate : α → Option (Bool × Option ε))
    (opts : List (option ε → option ε)) (input : List α)
    (oracle : List Bool) : List (Event α) :=
  filterWorker (buildOpts opts).onError predicate input oracle

/-- Whether the worker run of `Map` from map.go ends in an unrecovered
panic that terminates the whole process. The Go code defers the recover
builtin directly (`defer recover()`); per the Go specification recover
stops a panic only when called by a deferred function, not when it is
itself the deferred call, so a panic raised by the mapper (modelled by a
`none` result) propagates after the deferred `close(ch)` runs and crashes
the program. Control flow mirrors `mapWorker` exactly. -/
def mapWorkerCrashes {α β ε : Type} (onError : ε → Decision)
    (mapper : α → Option (β × Option ε)) :
    List α → List Bool → Bool
  | [], _ => false
  | v :: rest, oracle =>
    match mapper v with
    | none => true
    | some (_, some e) =>
      if onError e = DecisionStop then false
      else mapWorkerCrashes onError mapper rest oracle
    | some (_, none) =>
      if oracle.headD false then false
      else mapWorkerCrashes onError mapper rest oracle.tail

/-- Whether the worker run of `Filter` from new.go ends in an unrecovered
panic that terminates the whole process, for the same reason as
`mapWorkerCrashes` (`defer recover()` defers the recover builtin directly
and does not stop the panic). Control flow mirrors `filterWorker`. -/
def filterWorkerCrashes {α ε : Type} (onError : ε → Decision)
    (predicate : α → Option (Bool × Option ε)) :
    List α → List Bool → Bool
  | [], _ => false
  | v :: rest, oracle =>
    match predicate v with
    | none => true
    | some (_, some e) =>
      if onError e = DecisionStop then false
      else filterWorkerCrashes onError predicate rest oracle
    | some (ok, none) =>
      if !ok then filterWorkerCrashes onError predicate rest oracle
      else if oracle.headD false then false
      else filterWorkerCrashes onError predicate rest oracle.tail

/-- The worker goroutine body of `NewSlice` from new.go: for each slice
element perform a cancellation-guarded send, then the deferred `close(ch)`
fires. It invokes no user function and never reads `opt.onError`. -/
def newSliceWorker {α : Type} : List α → List Bool → List (Event α)
  | [], _ => [Event.close]
  | v :: rest, oracle =>
    if oracle.headD false then [Event.close]
    else Event.enqueue v :: newSliceWorker rest oracle.tail

/-- `NewSlice` from new.go: build the options (only `size` is used, which
sets the channel capacity and does not affect the event trace), then run
the worker. -/
def NewSlice {α ε : Type} (slice : List α)
    (opts : List (option ε → option ε)) (oracle : List Bool) :
    List (Event α) :=
  let _ := buildOpts opts
  newSliceWorker slice oracle

/-- `Consume` from consume.go: range over the values of the handle; on the first
non-nil consumer error return it; if the channel closes first, return nil.
The `error` result of the consumer is `Option ε`. -/
def Consume {α ε : Type} (consumer : α → Option ε) : List α → Option ε
  | [] => none
  | v :: rest =>
    match consumer v with
    | some e => some e
    | none => Consume consumer rest

/-- Instrumented view of the same `Consume` loop: the pair of (values read
from the handle, in order) and (values left undrained in the handle when
`Consume` returns). -/
def consumeSteps {α ε : Type} (consumer : α → Option ε) :
    List α → List α × List α
  | [] => ([], [])
  | v :: rest =>
    match consumer v with
    | some _ => ([v], rest)
    | none =>
      let p := consumeSteps consumer rest
      (v :: p.1, p.2)

/-! ## Helper lemmas -/

/-- Draining a trace that enqueues `l` and then closes yields exactly `l`. -/
theorem emitted_enqueues {α : Type} (l : List α) :
    emitted (l.map Event.enqueue ++ [Event.close]) = l := by
  induction l with
  | nil => rfl
  | cons v rest ih => simpa [emitted] using ih

/-- `Consume` returns nil when the consumer never errors on the values of
the handle. -/
theorem consume_of_no_error {α ε : Type} (consumer : α → Option ε) :
    ∀ vs : List α, (∀ v ∈ vs, consumer v = none) →
      Consume consumer vs = none := by
  intro vs
  induction vs with
  | nil => intro _; rfl
  | cons v rest ih =>
    intro h
    have hv : consumer v = none := h v (by simp)
    have hr : Consume consumer rest = none :=
      ih (fun w hw => h w (by simp [hw]))
    simp [Consume, hv, hr]

/-- The trace of the `Map` worker always ends with a single `close` event. -/
theorem mapWorker_closes {α β ε : Type} (onError : ε → Decision)
    (mapper : α → Option (β × Option ε)) :
    ∀ (input : List α) (oracle : List Bool),
      ∃ es, mapWorker onError mapper input oracle = es ++ [Event.close] ∧
        Event.close ∉ es := by
  intro input
  induction input with
  | nil => intro oracle; exact ⟨[], rfl, by simp⟩
  | cons v rest ih =>
    intro oracle
    cases hm : mapper v with
    | none => exact ⟨[], by simp [mapWorker, hm], by simp⟩
    | some p =>
      obtain ⟨r, err⟩ := p
      cases err with
      | some e =>
        by_cases hd : onError e = DecisionStop
        · exact ⟨[], by simp [mapWorker, hm, hd], by simp⟩
        · obtain ⟨es, h1, h2⟩ := ih oracle
          exact ⟨es, by simp [mapWorker, hm, hd, h1], h2⟩
      | none =>
        cases hc : oracle.headD false with
        | true =>
          rw [List.headD_eq_head?] at hc
          exact ⟨[], by simp [mapWorker, hm, hc], by simp⟩
        | false =>
          rw [List.headD_eq_head?] at hc
          obtain ⟨es, h1, h2⟩ := ih oracle.tail
          refine ⟨Event.enqueue r :: es, ?_, ?_⟩
          · simp [mapWorker, hm, hc, h1]
          · simp [h2]

/-- The trace of the `Filter` worker always ends with a single `close` event. -/
theorem filterWorker_closes {α ε : Type} (onError : ε → Decision)
    (predicate : α → Option (Bool × Option ε)) :
    ∀ (input : List α) (oracle : List Bool),
      ∃ es, filterWorker onError predicate input oracle = es ++ [Event.close] ∧
        Event.close ∉ es := by
  intro input
  induction input with
  | nil => intro oracle; exact ⟨[], rfl, by simp⟩
  | cons v rest ih =>
    intro oracle
    cases hm : predicate v with
    | none => exact ⟨[], by simp [filterWorker, hm], by simp⟩
    | some p =>
      obtain ⟨ok, err⟩ := p
      cases err with
      | some e =>
        by_cases hd : onError e = DecisionStop
        · exact ⟨[], by simp [filterWorker, hm, hd], by simp⟩
        · obtain ⟨es, h1, h2⟩ := ih oracle
          exact ⟨es, by simp [filterWorker, hm, hd, h1], h2⟩
      | none =>
        cases ok with
        | false =>
          obtain ⟨es, h1, h2⟩ := ih oracle
          exact ⟨es, by simp [filterWorker, hm, h1], h2⟩
        | true =>
          cases hc : oracle.headD false with
          | true =>
            rw [List.headD_eq_head?] at hc
            exact ⟨[], by simp [filterWorker, hm, hc], by simp⟩
          | false =>
            rw [List.headD_eq_head?] at hc
            obtain ⟨es, h1, h2⟩ := ih oracle.tail
            refine ⟨Event.enqueue v :: es, ?_, ?_⟩
            · simp [filterWorker, hm, hc, h1]
            · simp [h2]

/-- The trace of the `NewSlice` worker always ends with a single `close` event. -/
theorem newSliceWorker_closes {α : Type} :
    ∀ (slice : List α) (oracle : List Bool),
      ∃ es, newSliceWorker slice oracle = es ++ [Event.close] ∧
        Event.close ∉ es := by
  intro slice
  induction slice with
  | nil => intro oracle; exact ⟨[], rfl, by simp⟩
  | cons v rest ih =>
    intro oracle
    cases hc : oracle.headD false with
    | true =>
      rw [List.headD_eq_head?] at hc
      exact ⟨[], by simp [newSliceWorker, hc], by simp⟩
    | false =>
      rw [List.headD_eq_head?] at hc
      obtain ⟨es, h1, h2⟩ := ih oracle.tail
      refine ⟨Event.enqueue v :: es, ?_, ?_⟩
      · simp [newSliceWorker, hc, h1]
      · simp [h2]

/-- Under a policy that never returns `DecisionStop`, the `Map` worker on a
non-panicking mapper and an uncancelled run enqueues exactly the successful
mapper results, in input order, and then closes. -/
theorem mapWorker_ignore_trace {α β ε : Type} (p : ε → Decision)
    (hp : ∀ e, p e ≠ DecisionStop) (mapper : α → β × Option ε) :
    ∀ input : List α,
      mapWorker p (fun v => some (mapper v)) input [] =
        (input.filterMap fun v =>
          match mapper v with
          | (r, none) => some r
          | (_, some _) => none).map Event.enqueue ++ [Event.close] := by
  intro input
  induction input with
  | nil => rfl
  | cons v rest ih =>
    cases hm : mapper v with
    | mk r err =>
      cases err with
      | none => simp [mapWorker, hm, List.filterMap_cons, ih]
      | some e => simp [mapWorker, hm, hp e, List.filterMap_cons, ih]

/-- When the first mapper error is met with `DecisionStop`, the `Map` worker
enqueues exactly the results of the elements strictly before the erroring
element and then closes; the rest of the input (`zs`) never affects the
trace. -/
theorem mapWorker_stop_trace {α β ε : Type} (onError : ε → Decision)
    (mapper : α → β × Option ε) (y : α) (zs : List α) (e : ε)
    (hy : (mapper y).2 = some e) (hstop : onError e = DecisionStop) :
    ∀ xs : List α, (∀ v ∈ xs, (mapper v).2 = none) →
      mapWorker onError (fun v => some (mapper v)) (xs ++ y :: zs) [] =
        (xs.map fun v => Event.enqueue (mapper v).1) ++ [Event.close] := by
  intro xs
  induction xs with
  | nil =>
    intro _
    cases hmy : mapper y with
    | mk r err =>
      have herr : err = some e := by rw [hmy] at hy; exact hy
      subst herr
      simp [mapWorker, hmy, hstop]
  | cons v xs ih =>
    intro h
    have hv : (mapper v).2 = none := h v (by simp)
    have ih2 := ih (fun w hw => h w (by simp [hw]))
    cases hmv : mapper v with
    | mk r err =>
      have herr : err = none := by rw [hmv] at hv; exact hv
      subst herr
      simp [mapWorker, hmv, ih2]

/-- Under a policy that never returns `DecisionStop`, the `Filter` worker on
a non-panicking predicate and an uncancelled run enqueues exactly the input
values on which the predicate returns `(true, nil)`, unchanged and in input
order, and then closes. -/
theorem filterWorker_nostop_trace {α ε : Type} (p : ε → Decision)
    (hp : ∀ e, p e ≠ DecisionStop) (pred : α → Bool × Option ε) :
    ∀ input : List α,
      filterWorker p (fun v => some (pred v)) input [] =
        (input.filter fun v => (pred v).1 && (pred v).2.isNone).map Event.enqueue
          ++ [Event.close] := by
  intro input
  induction input with
  | nil => rfl
  | cons v rest ih =>
    cases hm : pred v with
    | mk ok err =>
      cases err with
      | some e => simp [filterWorker, hm, hp e, List.filter_cons, ih]
      | none =>
        cases ok with
        | false => simp [filterWorker, hm, List.filter_cons, ih]
        | true => simp [filterWorker, hm, List.filter_cons, ih]

/-- When the first predicate error is met with `DecisionStop`, the `Filter`
worker enqueues exactly the accepted values among the elements strictly
before the erroring element, then closes; the rest of the input never
affects the trace. -/
theorem filterWorker_stop_trace {α ε : Type} (onError : ε → Decision)
    (pred : α → Bool × Option ε) (y : α) (zs : List α) (e : ε)
    (hy : (pred y).2 = some e) (hstop : onError e = DecisionStop) :
    ∀ xs : List α, (∀ v ∈ xs, (pred v).2 = none) →
      filterWorker onError (fun v => some (pred v)) (xs ++ y :: zs) [] =
        ((xs.filter fun v => (pred v).1).map Event.enqueue) ++ [Event.close] := by
  intro xs
  induction xs with
  | nil =>
    intro _
    cases hmy : pred y with
    | mk ok err =>
      have herr : err = some e := by rw [hmy] at hy; exact hy
      subst herr
      simp [filterWorker, hmy, hstop]
  | cons v xs ih =>
    intro h
    have hv : (pred v).2 = none := h v (by simp)
    have ih2 := ih (fun w hw => h w (by simp [hw]))
    cases hmv : pred v with
    | mk ok err =>
      have herr : err = none := by rw [hmv] at hv; exact hv
      subst herr
      cases ok with
      | false => simp [filterWorker, hmv, List.filter_cons, ih2]
      | true => simp [filterWorker, hmv, List.filter_cons, ih2]

/-- When the predicate never errors, the `Filter` worker never consults the
error-decision policy: any two policies give identical traces. -/
theorem filterWorker_policy_irrelevant {α ε : Type}
    (pred : α → Bool × Option ε) (p q : ε → Decision) :
    ∀ (input : List α) (oracle : List Bool), (∀ v ∈ input, (pred v).2 = none) →
      filterWorker p (fun v => some (pred v)) input oracle =
      filterWorker q (fun v => some (pred v)) input oracle := by
  intro input
  induction input with
  | nil => intro oracle _; rfl
  | cons v rest ih =>
    intro oracle h
    have hv : (pred v).2 = none := h v (by simp)
    have hr := fun o => ih o (fun w hw => h w (by simp [hw]))
    cases hm : pred v with
    | mk ok err =>
      have herr : err = none := by rw [hm] at hv; exact hv
      subst herr
      cases ok with
      | false => simp [filterWorker, hm, hr]
      | true =>
        cases hc : oracle.headD false with
        | true => rw [List.headD_eq_head?] at hc; simp [filterWorker, hm, hc]
        | false => rw [List.headD_eq_head?] at hc; simp [filterWorker, hm, hc, hr]

/-- Absent observed cancellation, the `NewSlice` worker enqueues every slice
element in order and then closes. -/
theorem newSliceWorker_no_cancel {α : Type} :
    ∀ (slice : List α) (oracle : List Bool), (∀ b ∈ oracle, b = false) →
      newSliceWorker slice oracle = slice.map Event.enqueue ++ [Event.close] := by
  intro slice
  induction slice with
  | nil => intro oracle _; rfl
  | cons v rest ih =>
    intro oracle h
    have hc : oracle.headD false = false := by
      cases oracle with
      | nil => rfl
      | cons b t => exact h b (by simp)
    rw [List.headD_eq_head?] at hc
    have ht : ∀ b ∈ oracle.tail, b = false := fun b hb => h b (List.mem_of_mem_tail hb)
    simp [newSliceWorker, hc, ih oracle.tail ht]

/-- `Consume` on a handle whose values error-free prefix is followed by an
erroring value returns that error. -/
theorem consume_append_error {α ε : Type} (consumer : α → Option ε)
    (y : α) (zs : List α) (e : ε) (hy : consumer y = some e) :
    ∀ xs : List α, (∀ v ∈ xs, consumer v = none) →
      Consume consumer (xs ++ y :: zs) = some e := by
  intro xs
  induction xs with
  | nil => intro _; simp [Consume, hy]
  | cons v xs ih =>
    intro h
    have hv : consumer v = none := h v (by simp)
    have hr := ih (fun w hw => h w (by simp [hw]))
    simp [Consume, hv, hr]

/-- The instrumented `Consume` loop reads exactly the error-free prefix plus
the erroring value, and leaves the suffix untouched. -/
theorem consumeSteps_append_error {α ε : Type} (consumer : α → Option ε)
    (y : α) (zs : List α) (e : ε) (hy : consumer y = some e) :
    ∀ xs : List α, (∀ v ∈ xs, consumer v = none) →
      consumeSteps consumer (xs ++ y :: zs) = (xs ++ [y], zs) := by
  intro xs
  induction xs with
  | nil => intro _; simp [consumeSteps, hy]
  | cons v xs ih =>
    intro h
    have hv : consumer v = none := h v (by simp)
    have hr := ih (fun w hw => h w (by simp [hw]))
    simp [consumeSteps, hv, hr]

/-- A policy that never returns `DecisionStop` makes the `Map` worker behave
exactly like `IgnoreErrorHandler`, on every input and oracle. -/
theorem mapWorker_nonstop_eq_ignore {α β ε : Type} (p : ε → Decision)
    (hp : ∀ e, p e ≠ DecisionStop) (mapper : α → Option (β × Option ε)) :
    ∀ (input : List α) (oracle : List Bool),
      mapWorker p mapper input oracle =
        mapWorker IgnoreErrorHandler mapper input oracle := by
  intro input
  induction input with
  | nil => intro _; rfl
  | cons v rest ih =>
    intro oracle
    cases hm : mapper v with
    | none => simp [mapWorker, hm]
    | some pr =>
      obtain ⟨r, err⟩ := pr
      cases err with
      | some e =>
        have h2 : ¬ (IgnoreErrorHandler e = DecisionStop) := by
          simp [IgnoreErrorHandler, DecisionIgnore, DecisionStop]
        simp [mapWorker, hm, hp e, h2, ih]
      | none =>
        cases hc : oracle.headD false with
        | true => rw [List.headD_eq_head?] at hc; simp [mapWorker, hm, hc]
        | false => rw [List.headD_eq_head?] at hc; simp [mapWorker, hm, hc, ih]

/-- A policy that never returns `DecisionStop` makes the `Filter` worker
behave exactly like `IgnoreErrorHandler`, on every input and oracle. -/
theorem filterWorker_nonstop_eq_ignore {α ε : Type} (p : ε → Decision)
    (hp : ∀ e, p e ≠ DecisionStop) (predicate : α → Option (Bool × Option ε)) :
    ∀ (input : List α) (oracle : List Bool),
      filterWorker p predicate input oracle =
        filterWorker IgnoreErrorHandler predicate input oracle := by
  intro input
  induction input with
  | nil => intro _; rfl
  | cons v rest ih =>
    intro oracle
    cases hm : predicate v with
    | none => simp [filterWorker, hm]
    | some pr =>
      obtain ⟨ok, err⟩ := pr
      cases err with
      | some e =>
        have h2 : ¬ (IgnoreErrorHandler e = DecisionStop) := by
          simp [IgnoreErrorHandler, DecisionIgnore, DecisionStop]
        simp [filterWorker, hm, hp e, h2, ih]
      | none =>
        cases ok with
        | false => simp [filterWorker, hm, ih]
        | true =>
          cases hc : oracle.headD false with
          | true => rw [List.headD_eq_head?] at hc; simp [filterWorker, hm, hc]
          | false => rw [List.headD_eq_head?] at hc; simp [filterWorker, hm, hc, ih]

/-! ## Claim theorems -/

/-- Claim C1: for every input sequence and every mapper, `Map` under the
Ignore error-decision policy (resolved by `buildOpts`, the default when no
policy option is configured) emits exactly the mapper results of the
elements on which the mapper returns a nil error, in the original input
order; erroring elements are dropped with no value emitted and processing
continues with the next element. -/
theorem map_ignore_emits_mapper_successes {α β ε : Type}
    (opts : List (option ε → option ε))
    (hIgnore : ∀ e, (buildOpts opts).onError e = DecisionIgnore)
    (mapper : α → β × Option ε) (input : List α) :
    emitted (Map (fun v => some (mapper v)) opts input []) =
      input.filterMap fun v =>
        match mapper v with
        | (r, none) => some r
        | (_, some _) => none := by
  have hp : ∀ e, (buildOpts opts).onError e ≠ DecisionStop := by
    intro e
    rw [hIgnore e]
    decide
  rw [Map, mapWorker_ignore_trace _ hp, emitted_enqueues]

/-- Witness for C1: with no options configured, a pass-through mapper
erroring only at 3 on input [1,2,3,4,5] yields [1,2,4,5]. -/
theorem map_ignore_emits_mapper_successes_witness :
    (∀ e : String,
      (buildOpts ([] : List (option String → option String))).onError e = DecisionIgnore)
    ∧ emitted (Map (fun v : Nat =>
        some (v, if v = 3 then some "boom" else (none : Option String)))
        [] [1, 2, 3, 4, 5] []) = [1, 2, 4, 5] := by
  refine ⟨fun e => rfl, ?_⟩
  have h := map_ignore_emits_mapper_successes
    ([] : List (option String → option String)) (fun e => rfl)
    (fun v : Nat => (v, if v = 3 then some "boom" else (none : Option String)))
    [1, 2, 3, 4, 5]
  exact h.trans (by decide)

/-- Claim C2: when the policy answers `DecisionStop` on the first mapper
error, `Map` emits exactly the results of the elements strictly before the
erroring element (the erroring element itself is never emitted), the
remaining input `zs` never influences the trace (no further upstream values
are consumed), and `Consume` over the pipeline returns nil. -/
theorem map_stop_halts_at_first_error {α β ε : Type}
    (onError : ε → Decision) (mapper : α → β × Option ε)
    (xs : List α) (y : α) (zs : List α) (e : ε) (consumer : β → Option ε)
    (hxs : ∀ v ∈ xs, (mapper v).2 = none)
    (hy : (mapper y).2 = some e)
    (hstop : onError e = DecisionStop)
    (hc : ∀ v, consumer v = none) :
    Map (fun v => some (mapper v)) [WithErrHandler onError] (xs ++ y :: zs) [] =
        (xs.map fun v => Event.enqueue (mapper v).1) ++ [Event.close]
    ∧ emitted (Map (fun v => some (mapper v)) [WithErrHandler onError]
        (xs ++ y :: zs) []) = xs.map (fun v => (mapper v).1)
    ∧ Consume consumer (emitted (Map (fun v => some (mapper v))
        [WithErrHandler onError] (xs ++ y :: zs) [])) = none := by
  have hb : (buildOpts [WithErrHandler onError]).onError = onError := rfl
  have h1 : Map (fun v => some (mapper v)) [WithErrHandler onError]
      (xs ++ y :: zs) [] =
      (xs.map fun v => Event.enqueue (mapper v).1) ++ [Event.close] := by
    rw [Map, hb]
    exact mapWorker_stop_trace onError mapper y zs e hy hstop xs hxs
  have h2 : emitted (Map (fun v => some (mapper v)) [WithErrHandler onError]
      (xs ++ y :: zs) []) = xs.map (fun v => (mapper v).1) := by
    rw [h1]
    have := emitted_enqueues (xs.map fun v => (mapper v).1)
    simpa [List.map_map, Function.comp_def] using this
  refine ⟨h1, h2, ?_⟩
  rw [h2]
  exact consume_of_no_error consumer _ (fun v _ => hc v)

/-- Witness for C2: input [1,2,3,4,5], mapper erroring at 3, policy Stop:
the pipeline emits exactly [1,2] and Consume returns nil. -/
theorem map_stop_halts_at_first_error_witness :
    emitted (Map (fun v : Nat =>
        some (v, if v = 3 then some "boom" else (none : Option String)))
        [WithErrHandler (fun _ => DecisionStop)] [1, 2, 3, 4, 5] []) = [1, 2]
    ∧ Consume (fun _ : Nat => (none : Option String))
        (emitted (Map (fun v : Nat =>
          some (v, if v = 3 then some "boom" else (none : Option String)))
          [WithErrHandler (fun _ => DecisionStop)] [1, 2, 3, 4, 5] [])) = none := by
  have h := map_stop_halts_at_first_error (fun _ => DecisionStop)
    (fun v : Nat => (v, if v = 3 then some "boom" else (none : Option String)))
    [1, 2] 3 [4, 5] "boom" (fun _ : Nat => (none : Option String))
    (by decide) (by decide) rfl (fun _ => rfl)
  exact ⟨h.2.1.trans (by decide), h.2.2⟩

/-- Claim C3: `Consume` iterates the handle in order and returns the first
non-nil consumer error verbatim, stopping immediately; with no consumer
error it returns nil; and errors raised inside an upstream `Map` stage never
appear in the return value of `Consume`, whatever the configured policy. -/
theorem consume_returns_first_consumer_error {α ε : Type}
    (consumer : α → Option ε) (xs : List α) (y : α) (zs : List α) (e : ε)
    (hxs : ∀ v ∈ xs, consumer v = none) (hy : consumer y = some e) :
    Consume consumer (xs ++ y :: zs) = some e
    ∧ (∀ vs : List α, (∀ v ∈ vs, consumer v = none) →
        Consume consumer vs = none)
    ∧ (∀ (β : Type) (mapper : β → Option (α × Option ε))
        (opts : List (option ε → option ε)) (ins : List β)
        (c : α → Option ε), (∀ v, c v = none) →
        Consume c (emitted (Map mapper opts ins [])) = none) := by
  refine ⟨consume_append_error consumer y zs e hy xs hxs,
    consume_of_no_error consumer, ?_⟩
  intro β mapper opts ins c hcn
  exact consume_of_no_error c _ (fun v _ => hcn v)

/-- Witness for C3: a consumer failing exactly at 2 on handle [1,2,3] makes
Consume return that error. -/
theorem consume_returns_first_consumer_error_witness :
    Consume (fun v : Nat => if v = 2 then some "err2" else (none : Option String))
      [1, 2, 3] = some "err2" := by
  have h := consume_returns_first_consumer_error
    (fun v : Nat => if v = 2 then some "err2" else (none : Option String))
    [1] 2 [3] "err2" (by decide) (by decide)
  exact h.1

/-- Claim C4: `Filter` emits exactly the original values on which the
predicate returns `(true, nil)`, unchanged and in input order; `(false,
nil)` drops the value silently without consulting the policy; a non-nil
predicate error takes precedence over the boolean and is governed by the
policy: dropped under Ignore (default options), terminal under Stop. -/
theorem filter_semantics {α ε : Type} (pred : α → Bool × Option ε)
    (input : List α) (onError : ε → Decision)
    (xs : List α) (y : α) (zs : List α) (e : ε)
    (hxs : ∀ v ∈ xs, (pred v).2 = none)
    (hy : (pred y).2 = some e) (hstop : onError e = DecisionStop) :
    emitted (Filter (fun v => some (pred v)) [] input []) =
      input.filter (fun v => (pred v).1 && (pred v).2.isNone)
    ∧ emitted (Filter (fun v => some (pred v)) [WithErrHandler onError]
        (xs ++ y :: zs) []) = xs.filter (fun v => (pred v).1)
    ∧ (∀ (p q : ε → Decision) (oracle : List Bool),
        (∀ v ∈ input, (pred v).2 = none) →
        Filter (fun v => some (pred v)) [WithErrHandler p] input oracle =
        Filter (fun v => some (pred v)) [WithErrHandler q] input oracle) := by
  refine ⟨?_, ?_, ?_⟩
  · have hp : ∀ e2 : ε,
        (buildOpts ([] : List (option ε → option ε))).onError e2 ≠ DecisionStop := by
      intro e2
      show DecisionIgnore ≠ DecisionStop
      decide
    rw [Filter, filterWorker_nostop_trace _ hp, emitted_enqueues]
  · have hb : (buildOpts [WithErrHandler onError]).onError = onError := rfl
    rw [Filter, hb, filterWorker_stop_trace onError pred y zs e hy hstop xs hxs,
      emitted_enqueues]
  · intro p q oracle h
    have hbp : (buildOpts [WithErrHandler p]).onError = p := rfl
    have hbq : (buildOpts [WithErrHandler q]).onError = q := rfl
    rw [Filter, Filter, hbp, hbq]
    exact filterWorker_policy_irrelevant pred p q input oracle h

/-- Witness for C4: the predicate "even, erroring above 4" on [1..10] under
default options yields [2,4], and the pure "even" predicate yields
[2,4,6,8,10]. -/
theorem filter_semantics_witness :
    emitted (Filter (fun v : Nat =>
        some (decide (v % 2 = 0), if 4 < v then some "gt4" else (none : Option String)))
        [] [1, 2, 3, 4, 5, 6, 7, 8, 9, 10] []) = [2, 4]
    ∧ emitted (Filter (fun v : Nat =>
        some (decide (v % 2 = 0), if v = 0 then some "zero" else (none : Option String)))
        [] [1, 2, 3, 4, 5, 6, 7, 8, 9, 10] []) = [2, 4, 6, 8, 10] := by
  constructor
  · have h := (filter_semantics
      (fun v : Nat => (decide (v % 2 = 0), if 4 < v then some "gt4" else (none : Option String)))
      [1, 2, 3, 4, 5, 6, 7, 8, 9, 10] (fun _ => DecisionStop)
      [1, 2, 3, 4] 5 [6, 7, 8, 9, 10] "gt4" (by decide) (by decide) rfl).1
    exact h.trans (by decide)
  · have h := (filter_semantics
      (fun v : Nat => (decide (v % 2 = 0), if v = 0 then some "zero" else (none : Option String)))
      [1, 2, 3, 4, 5, 6, 7, 8, 9, 10] (fun _ => DecisionStop)
      [] 0 [] "zero" (by decide) (by decide) rfl).1
    exact h.trans (by decide)

/-- Every stage worker (`Map`, `Filter`, `NewSlice`) closes its output on
every exit path of the channel trace — upstream exhaustion, Stop decision,
observed cancellation, and even a panicking user function (whose deferred
`close(ch)` fires while the goroutine panics, before the process dies) —
and the single `close` is the last event of the trace, so no value is ever
enqueued after the close. This does NOT establish panic containment: on the
panic path the process then terminates, as `mapWorkerCrashes` and
`filterWorkerCrashes` record. -/
theorem workers_close_exactly_once {α β ε : Type} (onError : ε → Decision)
    (mapper : α → Option (β × Option ε))
    (predicate : α → Option (Bool × Option ε))
    (input slice : List α) (o1 o2 o3 : List Bool) :
    (∃ es, mapWorker onError mapper input o1 = es ++ [Event.close] ∧
      Event.close ∉ es)
    ∧ (∃ es, filterWorker onError predicate input o2 = es ++ [Event.close] ∧
      Event.close ∉ es)
    ∧ (∃ es, newSliceWorker slice o3 = es ++ [Event.close] ∧
      Event.close ∉ es) :=
  ⟨mapWorker_closes onError mapper input o1,
   filterWorker_closes onError predicate input o2,
   newSliceWorker_closes slice o3⟩

/-- Claim C5 fails on the code: a panicking user function does close the
output channel (the deferred `close(ch)` fires while the goroutine panics,
so nothing is enqueued after the close), but the panic is not contained
inside the worker: `defer recover()` defers the recover builtin directly,
which per the Go specification does not stop a panic, so the run ends in an
unrecovered panic that terminates the whole process. Concretely, a mapper
or predicate panicking on input 1 closes the channel yet crashes the
program, while the same run with a non-panicking mapper does not crash. -/
theorem worker_panic_terminates_process :
    mapWorkerCrashes (fun _ : String => DecisionIgnore)
      (fun _ : Nat => (none : Option (Nat × Option String))) [1] [] = true
    ∧ mapWorker (fun _ : String => DecisionIgnore)
      (fun _ : Nat => (none : Option (Nat × Option String))) [1] [] = [Event.close]
    ∧ filterWorkerCrashes (fun _ : String => DecisionIgnore)
      (fun _ : Nat => (none : Option (Bool × Option String))) [1] [] = true
    ∧ filterWorker (fun _ : String => DecisionIgnore)
      (fun _ : Nat => (none : Option (Bool × Option String))) [1] [] = [Event.close]
    ∧ mapWorkerCrashes (fun _ : String => DecisionIgnore)
      (fun v : Nat => some (v, (none : Option String))) [1] [] = false :=
  ⟨rfl, rfl, rfl, rfl, rfl⟩

/-- Claim C6: when a cancellation-guarded enqueue observes cancellation
first (oracle head true), the candidate value is dropped — never enqueued —
no further input is consumed, and the worker closes its output immediately:
the remaining trace is exactly `[close]`, for `Map`, `Filter` and
`NewSlice` alike. -/
theorem cancellation_drops_value_and_closes {α β ε : Type}
    (onError : ε → Decision)
    (mapper : α → Option (β × Option ε))
    (predicate : α → Option (Bool × Option ε))
    (v : α) (rest : List α) (oracle : List Bool) (r : β)
    (hm : mapper v = some (r, none))
    (hp : predicate v = some (true, none))
    (hc : oracle.headD false = true) :
    mapWorker onError mapper (v :: rest) oracle = [Event.close]
    ∧ filterWorker onError predicate (v :: rest) oracle = [Event.close]
    ∧ newSliceWorker (v :: rest) oracle = [Event.close] := by
  rw [List.headD_eq_head?] at hc
  refine ⟨?_, ?_, ?_⟩
  · simp [mapWorker, hm, hc]
  · simp [filterWorker, hp, hc]
  · simp [newSliceWorker, hc]

/-- Witness for C6: with cancellation observed at the very first send, all
three workers drop the value and close at once. -/
theorem cancellation_drops_value_and_closes_witness :
    mapWorker (fun _ : String => DecisionIgnore)
        (fun v : Nat => some (v, (none : Option String))) [1, 2, 3] [true] =
      [Event.close]
    ∧ filterWorker (fun _ : String => DecisionIgnore)
        (fun _ : Nat => some (true, (none : Option String))) [1, 2, 3] [true] =
      [Event.close]
    ∧ newSliceWorker [1, 2, 3] [true] = [Event.close] :=
  cancellation_drops_value_and_closes (fun _ : String => DecisionIgnore)
    (fun v : Nat => some (v, (none : Option String)))
    (fun _ : Nat => some (true, (none : Option String)))
    1 [2, 3] [true] 1 rfl rfl rfl

/-- Claim C7: absent observed cancellation, `NewSlice` emits every slice
element in input order and then closes; its trace never depends on the
configured options (it has no error path and never consults the policy),
and the empty slice closes after emitting zero values for every oracle. -/
theorem newSlice_emits_all_in_order {α ε : Type} (slice : List α)
    (opts opts2 : List (option ε → option ε)) (oracle : List Bool)
    (h : ∀ b ∈ oracle, b = false) :
    NewSlice slice opts oracle = slice.map Event.enqueue ++ [Event.close]
    ∧ emitted (NewSlice slice opts oracle) = slice
    ∧ NewSlice slice opts oracle = NewSlice slice opts2 oracle
    ∧ (∀ o : List Bool, NewSlice ([] : List α) opts o = [Event.close]) := by
  have h1 : NewSlice slice opts oracle = slice.map Event.enqueue ++ [Event.close] := by
    rw [NewSlice]
    exact newSliceWorker_no_cancel slice oracle h
  refine ⟨h1, ?_, rfl, fun o => rfl⟩
  rw [h1, emitted_enqueues]

/-- Witness for C7: `NewSlice` on [10, 20] with an uncancelled oracle emits
10 then 20 then closes. -/
theorem newSlice_emits_all_in_order_witness :
    NewSlice [10, 20] ([] : List (option String → option String)) [false, false] =
      [Event.enqueue 10, Event.enqueue 20, Event.close]
    ∧ emitted (NewSlice [10, 20] ([] : List (option String → option String))
        [false, false]) = [10, 20] := by
  have h := newSlice_emits_all_in_order [10, 20]
    ([] : List (option String → option String)) [WithSize 7] [false, false]
    (by decide)
  exact ⟨h.1.trans (by decide), h.2.1⟩

/-- Claim C8: `buildOpts` starts from the default record (size 0, policy
always Ignore) and applies options in list order, so the last option setting
a field wins and options leave the other field untouched; the empty option
list returns the defaults. -/
theorem buildOpts_defaults_and_last_wins {ε : Type}
    (opts : List (option ε → option ε)) (n : Int)
    (handler : ε → Decision) (e : ε) :
    (buildOpts ([] : List (option ε → option ε))).size = 0
    ∧ (buildOpts ([] : List (option ε → option ε))).onError e = DecisionIgnore
    ∧ (buildOpts (opts ++ [WithSize n])).size = n
    ∧ (buildOpts (opts ++ [WithSize n])).onError = (buildOpts opts).onError
    ∧ (buildOpts (opts ++ [WithErrHandler handler])).onError = handler
    ∧ (buildOpts (opts ++ [WithErrHandler handler])).size = (buildOpts opts).size := by
  refine ⟨rfl, rfl, ?_, ?_, ?_, ?_⟩ <;>
    simp [buildOpts, List.foldl_append, WithSize, WithErrHandler]

/-- Claim C9: any `Decision` other than `DecisionStop` — including strings
that are neither `DecisionStop` nor `DecisionIgnore`, expressible because
`Decision` is an open string type — makes `Map` and `Filter` behave exactly
like the Ignore policy: the erroring element is dropped and processing
continues. -/
theorem nonstop_decision_acts_like_ignore {α β ε : Type}
    (policy : ε → Decision) (hp : ∀ e, policy e ≠ DecisionStop)
    (mapper : α → Option (β × Option ε))
    (predicate : α → Option (Bool × Option ε))
    (input : List α) (o1 o2 : List Bool) :
    Map mapper [WithErrHandler policy] input o1 =
      Map mapper [WithErrHandler IgnoreErrorHandler] input o1
    ∧ Filter predicate [WithErrHandler policy] input o2 =
      Filter predicate [WithErrHandler IgnoreErrorHandler] input o2 := by
  constructor
  · have hb : (buildOpts [WithErrHandler policy]).onError = policy := rfl
    have hb2 : (buildOpts [WithErrHandler (IgnoreErrorHandler (ε := ε))]).onError =
        IgnoreErrorHandler := rfl
    rw [Map, Map, hb, hb2]
    exact mapWorker_nonstop_eq_ignore policy hp mapper input o1
  · have hb : (buildOpts [WithErrHandler policy]).onError = policy := rfl
    have hb2 : (buildOpts [WithErrHandler (IgnoreErrorHandler (ε := ε))]).onError =
        IgnoreErrorHandler := rfl
    rw [Filter, Filter, hb, hb2]
    exact filterWorker_nonstop_eq_ignore policy hp predicate input o2

/-- Witness for C9: the decision string "reschedule" is neither
`DecisionStop` nor `DecisionIgnore`, yet a policy returning it makes `Map`
behave exactly like the Ignore policy on [1,2,3] with an error at 2. -/
theorem nonstop_decision_acts_like_ignore_witness :
    (("reschedule" : Decision) ≠ DecisionStop
      ∧ ("reschedule" : Decision) ≠ DecisionIgnore)
    ∧ Map (fun v : Nat =>
        some (v, if v = 2 then some "boom" else (none : Option String)))
        [WithErrHandler (fun _ => "reschedule")] [1, 2, 3] [] =
      Map (fun v : Nat =>
        some (v, if v = 2 then some "boom" else (none : Option String)))
        [WithErrHandler IgnoreErrorHandler] [1, 2, 3] [] := by
  refine ⟨⟨by decide, by decide⟩, ?_⟩
  exact (nonstop_decision_acts_like_ignore (fun _ => "reschedule")
    (by intro e; show ("reschedule" : Decision) ≠ DecisionStop; decide)
    (fun v : Nat => some (v, if v = 2 then some "boom" else (none : Option String)))
    (fun _ : Nat => some (true, (none : Option String))) [1, 2, 3] [] []).1

/-- Claim C10: when the consumer errors, `Consume` reads nothing further
from the handle: the erroring element is the last one read, and every value
after it stays undrained in the handle. -/
theorem consume_error_leaves_rest_undrained {α ε : Type}
    (consumer : α → Option ε) (xs : List α) (y : α) (zs : List α) (e : ε)
    (hxs : ∀ v ∈ xs, consumer v = none) (hy : consumer y = some e) :
    consumeSteps consumer (xs ++ y :: zs) = (xs ++ [y], zs) :=
  consumeSteps_append_error consumer y zs e hy xs hxs

/-- Witness for C10: a consumer failing at 2 on handle [1,2,3] reads exactly
[1,2] and leaves [3] in the handle. -/
theorem consume_error_leaves_rest_undrained_witness :
    consumeSteps (fun v : Nat => if v = 2 then some "err2" else (none : Option String))
      [1, 2, 3] = ([1, 2], [3]) := by
  have h := consume_error_leaves_rest_undrained
    (fun v : Nat => if v = 2 then some "err2" else (none : Option String))
    [1] 2 [3] "err2" (by decide) (by decide)
  exact h

end Lazy
